import Mathlib

/-!
Verification development for the survey-PDF answer-extraction pipeline
(`src/main.py`).  The Python source is shallowly embedded: Python `str`
values are `List Char` (code points), Python dicts are association lists
built with dict-faithful insertion, Python exceptions are `Except` /
`Option` failure values, and Python's unbounded ints are `Int` / `Nat`.
-/

/-! ### Identifier ordering (`natural_sort_key`, src/main.py lines 16-17)

`natural_sort_key(s)` is `[int(c) if c.isdigit() else c for c in
re.split(r'(\d+)', s)]`.  `re.split` with a capturing group returns the
(possibly empty) non-digit segments interleaved with the maximal digit
runs: `[t0, d1, t1, ..., dn, tn]`.  We embed that list of alternating
string / int tokens as `List NToken`, starting with a string token and
then alternating number/string pairs, exactly the shape `re.split`
produces.  Digit recognition models the ASCII case of `\d` / `isdigit`.
-/

inductive NToken where
  | str (s : List Char)
  | num (n : Nat)
deriving DecidableEq

/-- Value of a digit run, as Python `int()` computes it on ASCII digits
(so leading zeros collapse: `int("01") = 1`). -/
def digitsToNat (ds : List Char) : Nat :=
  ds.foldl (fun a c => 10 * a + (c.toNat - 48)) 0

/-- Remaining `(digit-run, following-non-digit-run)` pairs of
`re.split(r'(\d+)', s)` after the leading non-digit segment.  The
recursion is driven by a fuel argument; the caller passes the length of
the list, which is sufficient because every step consumes at least one
character. -/
def parsePairsF : Nat → List Char → List (Nat × List Char)
  | 0, _ => []
  | _, [] => []
  | f + 1, c :: cs =>
    let d := (c :: cs).takeWhile Char.isDigit
    let r1 := (c :: cs).dropWhile Char.isDigit
    let t := r1.takeWhile (fun x => !x.isDigit)
    let r2 := r1.dropWhile (fun x => !x.isDigit)
    (digitsToNat d, t) :: parsePairsF f r2

/-- Flatten the `(digit-run, segment)` pairs into alternating
number/string tokens. -/
def pairsToTokens : List (Nat × List Char) → List NToken
  | [] => []
  | p :: ps => NToken.num p.1 :: NToken.str p.2 :: pairsToTokens ps

/-- Embedding of `natural_sort_key` (src/main.py line 16-17): the list
`[int(c) if c.isdigit() else c for c in re.split(r'(\d+)', s)]`. -/
def natural_sort_key (s : String) : List NToken :=
  let cs := s.toList
  NToken.str (cs.takeWhile (fun c => !c.isDigit)) ::
    pairsToTokens (parsePairsF cs.length (cs.dropWhile (fun c => !c.isDigit)))

/-- Comparison of two natural numbers, the semantics of Python's
`int < int` / `==` three-way outcome. -/
def natCmp (a b : Nat) : Ordering :=
  if a < b then .lt else if a = b then .eq else .gt

/-- Python code-point comparison of single characters. -/
def charCmp (a b : Char) : Ordering :=
  natCmp a.toNat b.toNat

/-- Python lexicographic string comparison (three-way outcome). -/
def charListCmp : List Char → List Char → Ordering
  | [], [] => .eq
  | [], _ :: _ => .lt
  | _ :: _, [] => .gt
  | a :: as, b :: bs =>
    match charCmp a b with
    | .eq => charListCmp as bs
    | o => o

/-- Comparison of two sort-key tokens.  Python compares `int` with `int`
and `str` with `str`; comparing `int` with `str` raises `TypeError`,
modelled by `none`. -/
def tokCmp : NToken → NToken → Option Ordering
  | .str a, .str b => some (charListCmp a b)
  | .num a, .num b => some (natCmp a b)
  | _, _ => none

/-- Python list comparison of two sort keys: lexicographic, element by
element, shorter prefix first; `none` propagates a `TypeError`. -/
def keyCmp : List NToken → List NToken → Option Ordering
  | [], [] => some .eq
  | [], _ :: _ => some .lt
  | _ :: _, [] => some .gt
  | a :: as, b :: bs =>
    match tokCmp a b with
    | none => none
    | some .eq => keyCmp as bs
    | some o => some o

/-- The comparison the identifier ordering induces on identifier
strings: compare their `natural_sort_key` values. -/
def idCmp (s t : String) : Option Ordering :=
  keyCmp (natural_sort_key s) (natural_sort_key t)

/-- Strict "sorts before" relation on identifiers. -/
def idLT (s t : String) : Prop := idCmp s t = some Ordering.lt

instance (s t : String) : Decidable (idLT s t) := by
  unfold idLT; infer_instance

/-- Boolean form of `idLT`, used by the sort. -/
def idLTb (s t : String) : Bool := idCmp s t == some Ordering.lt

/-- Stable insertion into an already-sorted list: a new element goes
after every element it is not strictly less than.  Together with the
left fold below this is the unique stable sort by `natural_sort_key`,
the semantics of Python's `sorted(..., key=natural_sort_key)`. -/
def insertSorted (x : String) : List String → List String
  | [] => [x]
  | y :: ys => if idLTb x y then x :: y :: ys else y :: insertSorted x ys

/-- Stable sort by `natural_sort_key` (Python `sorted` is a stable sort
driven by `<` on the keys). -/
def sortIds (l : List String) : List String :=
  l.foldl (fun acc x => insertSorted x acc) []

/-- Alternation invariant of `re.split` keys: token constructors strictly
alternate, `str` at even positions. `true` means a string token is
expected next. -/
def AltKey : Bool → List NToken → Prop
  | _, [] => True
  | true, NToken.str _ :: l => AltKey false l
  | false, NToken.num _ :: l => AltKey true l
  | _, _ => False

/-! ### JSON values and Python dict semantics

`json.loads` produces Python values: JSON objects become `dict`s
(insertion-ordered, duplicate keys resolved by later-value-wins with the
first occurrence keeping its position), arrays become lists, strings and
booleans map directly, and numbers become `int` (here `Int`) or `float`.
Float semantics are not interpreted; a float is carried as its source
lexeme.  A Python `dict` is embedded as an association list maintained
by `dictSet` below, which preserves exactly the dict insertion rules. -/

inductive JsonValue where
  | null
  | bool (b : Bool)
  | str (s : String)
  | num (n : Int)
  | flt (lexeme : String)
  | arr (xs : List JsonValue)
  | obj (m : List (String × JsonValue))
deriving BEq

/-- Association lists standing for Python dicts over string keys. -/
abbrev PyDict := List (String × JsonValue)

/-- Python `d[k] = v`: update the value in place if the key is present
(keeping its position), otherwise append the new binding. -/
def dictSet (m : PyDict) (k : String) (v : JsonValue) : PyDict :=
  if m.any (fun p => p.1 == k) then
    m.map (fun p => if p.1 == k then (k, v) else p)
  else
    m ++ [(k, v)]

/-- Python `a.update(b)`: set every binding of `b` into `a`, in `b`'s
iteration order, so on key collision the entry coming from `b` wins. -/
def dictUpdate (a b : PyDict) : PyDict :=
  b.foldl (fun acc p => dictSet acc p.1 p.2) a

/-- Python `d.get(k)` returning `None` as `none`: the binding of the
(unique, in a real dict) occurrence of the key. -/
def dictGet? (m : PyDict) (k : String) : Option JsonValue :=
  (m.find? (fun p => p.1 == k)).map (fun p => p.2)

/-- The characters `re.DOTALL`-matched braces are written via code
points to keep them out of string literals. -/
def lbraceC : Char := Char.ofNat 123

def rbraceC : Char := Char.ofNat 125

/-- JSON whitespace, as skipped by `json.loads` (`[ \t\n\r]`). -/
def isWsChar (c : Char) : Bool :=
  c == ' ' || c == '\t' || c == '\n' || c == '\r'

def skipWs (cs : List Char) : List Char :=
  cs.dropWhile isWsChar

/-- Hex digit value for `\uXXXX` escapes. -/
def hexVal (c : Char) : Option Nat :=
  if '0' ≤ c ∧ c ≤ '9' then some (c.toNat - 48)
  else if 'a' ≤ c ∧ c ≤ 'f' then some (c.toNat - 87)
  else if 'A' ≤ c ∧ c ≤ 'F' then some (c.toNat - 55)
  else none

def parse4Hex (cs : List Char) : Option (Nat × List Char) :=
  match cs with
  | a :: b :: c :: d :: rest =>
    match hexVal a, hexVal b, hexVal c, hexVal d with
    | some x, some y, some z, some w =>
      some (((x * 16 + y) * 16 + z) * 16 + w, rest)
    | _, _, _, _ => none
  | _ => none

/-- Single-character escapes of JSON strings (`json.decoder.BACKSLASH`). -/
def escChar (e : Char) : Option Char :=
  if e == '"' then some '"'
  else if e == '\\' then some '\\'
  else if e == '/' then some '/'
  else if e == 'b' then some (Char.ofNat 8)
  else if e == 'f' then some (Char.ofNat 12)
  else if e == 'n' then some '\n'
  else if e == 'r' then some '\r'
  else if e == 't' then some '\t'
  else none

/-- Body of a JSON string after the opening quote
(`json.decoder.py_scanstring`, strict mode): literal characters up to
the closing quote, rejecting unescaped control characters, decoding the
named escapes and `\uXXXX` with surrogate-pair combination.  A lone
surrogate, which Python keeps as an unpaired code unit, is outside
Lean's scalar-value `Char` and maps through `Char.ofNat`'s default; no
claim touches that corner.  Fuel is the remaining length. -/
def parseStr : Nat → List Char → List Char → Option (String × List Char)
  | 0, _, _ => none
  | f + 1, acc, cs =>
    match cs with
    | [] => none
    | c :: rest =>
      if c == '"' then some (String.mk acc.reverse, rest)
      else if c == '\\' then
        match rest with
        | [] => none
        | e :: rest2 =>
          if e == 'u' then
            match parse4Hex rest2 with
            | some (n, rest3) =>
              if 0xD800 ≤ n ∧ n ≤ 0xDBFF then
                match rest3 with
                | '\\' :: 'u' :: rest4 =>
                  match parse4Hex rest4 with
                  | some (n2, rest5) =>
                    if 0xDC00 ≤ n2 ∧ n2 ≤ 0xDFFF then
                      parseStr f
                        (Char.ofNat
                          (0x10000 + (n - 0xD800) * 0x400 + (n2 - 0xDC00)) :: acc)
                        rest5
                    else parseStr f (Char.ofNat n :: acc) rest3
                  | none => none
                | _ => parseStr f (Char.ofNat n :: acc) rest3
              else parseStr f (Char.ofNat n :: acc) rest3
            | none => none
          else
            match escChar e with
            | some ch => parseStr f (ch :: acc) rest2
            | none => none
      else if c.toNat < 32 then none
      else parseStr f (c :: acc) rest

/-- Integer part of a JSON number (`0 | [1-9][0-9]*`): a leading zero
matches alone, exactly as `json.scanner.NUMBER_RE` does. -/
def parseUIntPart (cs : List Char) : Option (List Char × List Char) :=
  match cs with
  | '0' :: rest => some (['0'], rest)
  | c :: _ =>
    if c.isDigit then some (cs.takeWhile Char.isDigit, cs.dropWhile Char.isDigit)
    else none
  | [] => none

/-- Optional fraction group `\.\d+`; consumed only when fully present. -/
def parseFracPart (cs : List Char) : List Char × List Char :=
  match cs with
  | '.' :: rest =>
    let ds := rest.takeWhile Char.isDigit
    if ds.isEmpty then ([], cs) else ('.' :: ds, rest.dropWhile Char.isDigit)
  | _ => ([], cs)

/-- Optional exponent group `[eE][-+]?\d+`; consumed only when fully
present. -/
def parseExpPart (cs : List Char) : List Char × List Char :=
  match cs with
  | c :: rest =>
    if c == 'e' || c == 'E' then
      match rest with
      | s :: rest2 =>
        if s == '+' || s == '-' then
          let ds := rest2.takeWhile Char.isDigit
          if ds.isEmpty then ([], cs)
          else (c :: s :: ds, rest2.dropWhile Char.isDigit)
        else
          let ds := rest.takeWhile Char.isDigit
          if ds.isEmpty then ([], cs)
          else (c :: ds, rest.dropWhile Char.isDigit)
      | [] => ([], cs)
    else ([], cs)
  | [] => ([], cs)

/-- JSON number at the head of the input, per `NUMBER_RE`: an integer
becomes a Python `int`, a number with fraction or exponent becomes a
float (kept as its lexeme). -/
def parseNumber (cs : List Char) : Option (JsonValue × List Char) :=
  let p := match cs with
    | '-' :: t => (true, t)
    | _ => (false, cs)
  match parseUIntPart p.2 with
  | none => none
  | some (ip, cs2) =>
    let fp := parseFracPart cs2
    let ep := parseExpPart fp.2
    if fp.1.isEmpty ∧ ep.1.isEmpty then
      let n : Int := Int.ofNat (digitsToNat ip)
      some (JsonValue.num (if p.1 then -n else n), cs2)
    else
      some (JsonValue.flt
        (String.mk ((if p.1 then ['-'] else []) ++ ip ++ fp.1 ++ ep.1)), ep.2)

/-- A pending task of the recursive-descent scanner: a value, the
members of an object being built, or the elements of an array. -/
inductive PTask where
  | pvalue (cs : List Char)
  | pmembers (cs : List Char) (acc : PyDict)
  | pelems (cs : List Char) (acc : List JsonValue)

/-- The `json.loads` scanner (`json.scanner.py_make_scanner` with the
default strict decoder): dispatch on the head character trying, in
order, string, object, array, the three literals, a number, and the
`NaN` / `Infinity` constants.  Object members use `dictSet`, so
duplicate keys follow dict semantics.  Fuel bounds the call depth; every
recursive call strictly consumes input, so the caller's
`length + 1` fuel is never exhausted. -/
def parseRun : Nat → PTask → Option (JsonValue × List Char)
  | 0, _ => none
  | f + 1, .pvalue cs =>
    match cs with
    | [] => none
    | c :: rest =>
      if c == '"' then
        (parseStr (rest.length + 1) [] rest).map (fun p => (JsonValue.str p.1, p.2))
      else if c == lbraceC then
        let cs2 := skipWs rest
        match cs2 with
        | c2 :: rest2 =>
          if c2 == rbraceC then some (JsonValue.obj [], rest2)
          else parseRun f (.pmembers cs2 [])
        | [] => none
      else if c == '[' then
        let cs2 := skipWs rest
        match cs2 with
        | c2 :: rest2 =>
          if c2 == ']' then some (JsonValue.arr [], rest2)
          else parseRun f (.pelems cs2 [])
        | [] => none
      else if List.isPrefixOf "null".toList cs then some (JsonValue.null, cs.drop 4)
      else if List.isPrefixOf "true".toList cs then some (JsonValue.bool true, cs.drop 4)
      else if List.isPrefixOf "false".toList cs then some (JsonValue.bool false, cs.drop 5)
      else
        match parseNumber cs with
        | some r => some r
        | none =>
          if List.isPrefixOf "NaN".toList cs then some (JsonValue.flt "NaN", cs.drop 3)
          else if List.isPrefixOf "Infinity".toList cs then
            some (JsonValue.flt "Infinity", cs.drop 8)
          else if List.isPrefixOf "-Infinity".toList cs then
            some (JsonValue.flt "-Infinity", cs.drop 9)
          else none
  | f + 1, .pmembers cs acc =>
    match cs with
    | c :: rest =>
      if c == '"' then
        match parseStr (rest.length + 1) [] rest with
        | some (k, rest2) =>
          match skipWs rest2 with
          | ':' :: rest3 =>
            match parseRun f (.pvalue (skipWs rest3)) with
            | some (v, rest4) =>
              let acc2 := dictSet acc k v
              match skipWs rest4 with
              | c5 :: rest5 =>
                if c5 == ',' then parseRun f (.pmembers (skipWs rest5) acc2)
                else if c5 == rbraceC then some (JsonValue.obj acc2, rest5)
                else none
              | [] => none
            | none => none
          | _ => none
        | none => none
      else none
    | [] => none
  | f + 1, .pelems cs acc =>
    match parseRun f (.pvalue cs) with
    | some (v, rest) =>
      match skipWs rest with
      | c2 :: rest2 =>
        if c2 == ',' then parseRun f (.pelems (skipWs rest2) (acc ++ [v]))
        else if c2 == ']' then some (JsonValue.arr (acc ++ [v]), rest2)
        else none
      | [] => none
    | none => none

/-- Embedding of `json.loads`: skip leading whitespace, scan one value,
require only whitespace to remain (otherwise `ValueError`, i.e.
`none`). -/
def jsonParse (cs : List Char) : Option JsonValue :=
  match parseRun (cs.length + 1) (.pvalue (skipWs cs)) with
  | some (v, rest) => if (skipWs rest).isEmpty then some v else none
  | none => none

/-! ### Structured extraction (`extract_json_from_text`, src/main.py lines 19-38)

`re.search(r'(\{.*\})', text, re.DOTALL)` matches from the leftmost
brace that has a closing brace somewhere after it; the greedy `.*` then
extends to the rightmost closing brace of the whole text.  Since any
later opening brace would need a closing brace even further right, a
match exists exactly when the index of the first opening brace is
strictly below the index of the last closing brace, and the matched span
runs between those two positions inclusively. -/

/-- Index of the first character satisfying `p` (the scan order of
`re.search`). -/
def firstIdx (p : Char → Bool) : List Char → Option Nat
  | [] => none
  | c :: cs => if p c then some 0 else (firstIdx p cs).map (· + 1)

/-- The span `re.search(r'(\{.*\})', text, re.DOTALL)` captures:
leftmost opening brace through rightmost closing brace, when the former
precedes the latter. -/
def braceSpan (cs : List Char) : Option (List Char) :=
  match firstIdx (fun c => c == lbraceC) cs with
  | none => none
  | some i =>
    match firstIdx (fun c => c == rbraceC) cs.reverse with
    | none => none
    | some r =>
      let j := cs.length - 1 - r
      if i < j then some ((cs.drop i).take (j - i + 1)) else none

/-- Outcome of one extraction attempt, together with the diagnostics the
source logs: `success` is the parsed value returned on line 28; the
"No JSON object found" branch (line 30) is `noObjectFound`; the
`json.JSONDecodeError` branch (lines 32-35) is `malformedJSON` carrying
the offending span, which the source logs verbatim ("Content that failed
to parse") before returning `None`. -/
inductive ExtractResult where
  | success (v : JsonValue)
  | noObjectFound
  | malformedJSON (span : List Char)
deriving BEq

/-- Branch structure of `extract_json_from_text`: find the greedy brace
span, then parse it. -/
def extract_json_full (cs : List Char) : ExtractResult :=
  match braceSpan cs with
  | none => .noObjectFound
  | some sp =>
    match jsonParse sp with
    | some v => .success v
    | none => .malformedJSON sp

/-- Value `extract_json_from_text` actually returns to its caller: the
parsed value, or `None` from every failure branch (both `except` arms
swallow the exception). -/
def extract_json_from_text (cs : List Char) : Option JsonValue :=
  match extract_json_full cs with
  | .success v => some v
  | _ => none

/-! ### The pipeline (`process_pdf`, src/main.py lines 135-179)

A page is represented by the outcome of
`process_image_with_llm` for it: `some d` when a (necessarily non-empty,
because of the truthiness check on line 122) top-level JSON object was
extracted, `none` when the model call or the extraction failed.  On a
failed page, `survey_data.update(None)` raises `TypeError`, which the
`except` on line 154 catches, so the page contributes nothing.  One
survey instance is `survey_length` consecutive pages (`range(0,
len(images), survey_length)` with the inner bound check), the last one
possibly short.  `survey_length = 0` makes `range` raise `ValueError`;
negative lengths are outside the model (`Nat`).

The answer cell for identifier `q` is
`survey_data.get(q, {}).get('answer', '')`: the `answer` field of the
entry when the entry is a dict, `''` when the identifier is absent or
its entry lacks the key, and an uncaught `AttributeError`, aborting the
run, when the entry is not a dict. -/

/-- Mutable state of the `process_pdf` loop: `question_structure` and
`all_data`. -/
structure PState where
  qs : List String
  rows : List (List JsonValue)
deriving BEq

/-- One answer cell: `survey_data.get(q, {}).get('answer', '')`. -/
def cellOf (sd : PyDict) (q : String) : Except String JsonValue :=
  match dictGet? sd q with
  | none => .ok (JsonValue.str "")
  | some (JsonValue.obj e) =>
    .ok (match dictGet? e "answer" with
      | some a => a
      | none => JsonValue.str "")
  | some _ => .error "AttributeError"

/-- The row-building loop `for q in question_structure:
row_data.append(...)` (lines 164-165). -/
def materializeRow (qs : List String) (sd : PyDict) : Except String (List JsonValue) :=
  match qs with
  | [] => .ok []
  | q :: rest =>
    match cellOf sd q with
    | .ok c =>
      match materializeRow rest sd with
      | .ok cs => .ok (c :: cs)
      | .error e => .error e
    | .error e => .error e

/-- Per-page body of the inner loop (lines 144-155), accumulating
`(survey_data, question_structure)`; keys are collected only during the
first survey instance (`k = 0` is `i == 0`). -/
def pageStep (k : Nat) (acc : PyDict × List String) (pg : Option PyDict) :
    PyDict × List String :=
  match pg with
  | some d =>
    (dictUpdate acc.1 d, if k == 0 then acc.2 ++ d.map (fun p => p.1) else acc.2)
  | none => acc

/-- Python `set(...)` deduplication of the collected keys.  CPython's
set iteration order is unspecified; the model keeps first occurrences,
which is immaterial whenever identifiers have distinct sort keys. -/
def pyDedup (l : List String) : List String :=
  l.foldl (fun acc x => if acc.contains x then acc else acc ++ [x]) []

/-- One iteration of the outer loop (lines 142-169) for the instance
with 0-based ordinal `k` (`i = k * survey_length`): fold the pages, fix
the schema if this is the first instance, then materialize the row
`[i // survey_length + 1] ++ answers`. -/
def stepInstance (k : Nat) (st : PState) (inst : List (Option PyDict)) :
    Except String PState :=
  let acc := inst.foldl (pageStep k) (([] : PyDict), st.qs)
  let qs := if k == 0 then sortIds (pyDedup acc.2) else acc.2
  match materializeRow qs acc.1 with
  | .ok cells =>
    .ok ⟨qs, st.rows ++ [JsonValue.num (Int.ofNat (k + 1)) :: cells]⟩
  | .error e => .error e

/-- The outer loop over all survey instances. -/
def runInstances : List (List (Option PyDict)) → Nat → PState → Except String PState
  | [], _, st => .ok st
  | inst :: rest, k, st =>
    match stepInstance k st inst with
    | .ok st' => runInstances rest (k + 1) st'
    | .error e => .error e

/-- Split the page sequence into consecutive instances of `Lm1 + 1`
pages, the last possibly short — the effect of `range(0, len(images),
survey_length)` with the `i + j < len(images)` guard.  Fuel is the list
length; every step consumes the head, so it is sufficient. -/
def chunkGo : Nat → Nat → List α → List (List α)
  | _, _, [] => []
  | 0, _, _ :: _ => []
  | f + 1, Lm1, p :: ps => (p :: ps).take (Lm1 + 1) :: chunkGo f Lm1 (ps.drop Lm1)

/-- The survey instances of a page sequence for a positive
`survey_length` `L`. -/
def instancesOf (L : Nat) (pages : List (Option PyDict)) : List (List (Option PyDict)) :=
  chunkGo pages.length (L - 1) pages

/-- Embedding of `process_pdf`: from the per-page extraction outcomes,
produce the CSV header `['response_id'] + question_structure` and the
data rows (lines 171-175 write exactly these to the output file).
`survey_length = 0` is `range`'s `ValueError`. -/
def process_pdf (survey_length : Nat) (pages : List (Option PyDict)) :
    Except String (List String × List (List JsonValue)) :=
  if survey_length = 0 then .error "ValueError: range() arg 3 must not be zero"
  else
    match runInstances (instancesOf survey_length pages) 0 ⟨[], []⟩ with
    | .ok st => .ok ("response_id" :: st.qs, st.rows)
    | .error e => .error e

/-! ### Derived forms used in the statements

The following definitions give names to the quantities the claims speak
about; the theorems prove them equal to what the pipeline computes. -/

/-- Keys one page contributes to `question_structure`: the dict's keys
in insertion order for a surviving page, nothing for a failed one. -/
def collectStep (ks : List String) (pg : Option PyDict) : List String :=
  match pg with
  | some d => ks ++ d.map (fun p => p.1)
  | none => ks

/-- Keys collected across an instance's pages, in page order, surviving
pages only (the source's `question_structure.extend(...)` per page). -/
def collectKeys (inst : List (Option PyDict)) : List String :=
  inst.foldl collectStep []

/-- The fixed question schema:
`sorted(set(keys of instance 1), key=natural_sort_key)`. -/
def buildSchema (inst : List (Option PyDict)) : List String :=
  sortIds (pyDedup (collectKeys inst))

/-- Effect of one page on `survey_data`: `survey_data.update(d)` for a
surviving page; a failed page leaves it unchanged (the caught
`TypeError`). -/
def mergeStep (sd : PyDict) (pg : Option PyDict) : PyDict :=
  match pg with
  | some d => dictUpdate sd d
  | none => sd

/-- Union-merge of an instance's surviving pages, in page order, from a
given starting dict. -/
def mergeFrom (sd : PyDict) (inst : List (Option PyDict)) : PyDict :=
  inst.foldl mergeStep sd

/-- The SurveyAnswerSet of an instance: union-merge of its surviving
pages' answer sets, later pages overwriting earlier ones. -/
def mergeInstance (inst : List (Option PyDict)) : PyDict :=
  mergeFrom [] inst

/-- Modelled from the spec (Row Materializer contract, §4.5): the answer
at a schema position is the entry's `answer` field if the identifier is
present with one, else the empty-string placeholder. -/
def specAnswerCell (sd : PyDict) (q : String) : JsonValue :=
  match dictGet? sd q with
  | some (JsonValue.obj e) =>
    (match dictGet? e "answer" with
     | some a => a
     | none => JsonValue.str "")
  | _ => JsonValue.str ""

/-- First dict, scanning a list of dicts, that binds `q`. -/
def firstHit (q : String) : List PyDict → Option JsonValue
  | [] => none
  | d :: ds =>
    match dictGet? d q with
    | some v => some v
    | none => firstHit q ds

/-- Modelled from the spec (§3, SurveyInstance): the merged value of `q`
is the one from the last surviving page that binds `q`. -/
def specMergeLookup (inst : List (Option PyDict)) (q : String) : Option JsonValue :=
  firstHit q (inst.filterMap id).reverse

/-- The output rows for consecutive instances starting at ordinal `k`,
under a fixed schema `qs`: response id `k + 1`, then one materialized
cell per schema entry. -/
def rowsFrom (qs : List String) : Nat → List (List (Option PyDict)) → List (List JsonValue)
  | _, [] => []
  | k, inst :: rest =>
    (JsonValue.num (Int.ofNat (k + 1)) ::
        qs.map (specAnswerCell (mergeInstance inst))) ::
      rowsFrom qs (k + 1) rest

/-- Every value of the dict is itself a dict — the typing the data model
gives a PageAnswerSet / SurveyAnswerSet (identifier to AnswerEntry). -/
def isObj : JsonValue → Bool
  | .obj _ => true
  | _ => false

/-- A well-typed answer set: all values are entry objects. -/
def WTDict (d : PyDict) : Prop := ∀ p ∈ d, isObj p.2 = true

/-- A well-typed page outcome: a surviving page is a well-typed answer
set; a failed page carries nothing. -/
def WTPage : Option PyDict → Prop
  | some d => WTDict d
  | none => True

instance (d : PyDict) : Decidable (WTDict d) :=
  List.decidableBAll _ d

instance : DecidablePred WTPage := fun pg =>
  match pg with
  | some d => inferInstanceAs (Decidable (WTDict d))
  | none => inferInstanceAs (Decidable True)

/-- A well-typed page sequence: every surviving page is a well-typed
answer set. -/
def WTPages (pages : List (Option PyDict)) : Prop :=
  ∀ pg ∈ pages, WTPage pg

instance (pages : List (Option PyDict)) : Decidable (WTPages pages) :=
  List.decidableBAll _ pages

/-- A page outcome whose dict (if any) has no duplicate keys — true of
every real Python dict. -/
def NodupKeysPage : Option PyDict → Prop
  | some d => (d.map (fun p => p.1)).Nodup
  | none => True

instance : DecidablePred NodupKeysPage := fun pg =>
  match pg with
  | some d => inferInstanceAs (Decidable ((d.map (fun p : String × JsonValue => p.1)).Nodup))
  | none => inferInstanceAs (Decidable True)

/-- All pages of an instance have duplicate-free key lists. -/
def NodupPages (inst : List (Option PyDict)) : Prop :=
  ∀ pg ∈ inst, NodupKeysPage pg

instance (inst : List (Option PyDict)) : Decidable (NodupPages inst) :=
  List.decidableBAll _ inst

/-- The end-to-end scenario of §8: four per-page extraction outcomes,
`survey_length = 2`, page 4 failed. -/
def scenarioPages : List (Option PyDict) :=
  [some [("1_1", JsonValue.obj
      [("question", JsonValue.str "Yes"), ("answer", JsonValue.bool true)])],
   some [("1_2", JsonValue.obj
      [("question", JsonValue.str "No"), ("answer", JsonValue.bool false)])],
   some [("1_1", JsonValue.obj
      [("question", JsonValue.str "Yes"), ("answer", JsonValue.bool false)])],
   none]

/-! ### Lemmas: the identifier ordering -/

theorem natCmp_lt_iff (a b : Nat) : natCmp a b = Ordering.lt ↔ a < b := by
  unfold natCmp
  split_ifs with h1 h2 <;> simp <;> omega

theorem natCmp_eq_iff (a b : Nat) : natCmp a b = Ordering.eq ↔ a = b := by
  unfold natCmp
  split_ifs with h1 h2 <;> simp <;> omega

theorem charCmp_eq_iff (a b : Char) : charCmp a b = Ordering.eq ↔ a = b := by
  unfold charCmp
  rw [natCmp_eq_iff]
  constructor
  · intro h
    apply Char.eq_of_val_eq
    apply UInt32.eq_of_val_eq
    exact Fin.eq_of_val_eq h
  · intro h; rw [h]

theorem charCmp_refl (a : Char) : charCmp a a = Ordering.eq := by
  rw [charCmp_eq_iff]

theorem charCmp_lt_trans {a b c : Char} (h1 : charCmp a b = Ordering.lt)
    (h2 : charCmp b c = Ordering.lt) : charCmp a c = Ordering.lt := by
  unfold charCmp at *
  rw [natCmp_lt_iff] at *
  omega

theorem clc_eq_iff (a b : List Char) : charListCmp a b = Ordering.eq ↔ a = b := by
  induction a generalizing b with
  | nil => cases b <;> simp [charListCmp]
  | cons x xs ih =>
    cases b with
    | nil => simp [charListCmp]
    | cons y ys =>
      simp only [charListCmp]
      constructor
      · intro hc
        rcases hxy : charCmp x y with _ | _ | _ <;> rw [hxy] at hc
        · simp at hc
        · rw [charCmp_eq_iff] at hxy
          rw [(ih ys).mp hc, hxy]
        · simp at hc
      · intro hc
        injection hc with h1 h2
        subst h1; subst h2
        rw [charCmp_refl]
        exact (ih xs).mpr rfl

theorem clc_lt_trans {a b c : List Char} (h1 : charListCmp a b = Ordering.lt)
    (h2 : charListCmp b c = Ordering.lt) : charListCmp a c = Ordering.lt := by
  induction a generalizing b c with
  | nil =>
    cases b with
    | nil => simp [charListCmp] at h1
    | cons y ys =>
      cases c with
      | nil => simp [charListCmp] at h2
      | cons z zs => simp [charListCmp]
  | cons x xs ih =>
    cases b with
    | nil => simp [charListCmp] at h1
    | cons y ys =>
      cases c with
      | nil => simp [charListCmp] at h2
      | cons z zs =>
        simp only [charListCmp] at h1 h2
        rcases hxy : charCmp x y with _ | _ | _ <;> rw [hxy] at h1
        · rcases hyz : charCmp y z with _ | _ | _ <;> rw [hyz] at h2
          · simp only [charListCmp, charCmp_lt_trans hxy hyz]
          · have hxz : charCmp x z = Ordering.lt := by
              rw [show z = y from ((charCmp_eq_iff y z).mp hyz).symm]
              exact hxy
            simp only [charListCmp, hxz]
          · simp at h2
        · rcases hyz : charCmp y z with _ | _ | _ <;> rw [hyz] at h2
          · have hxz : charCmp x z = Ordering.lt := by
              rw [show x = y from (charCmp_eq_iff x y).mp hxy]
              exact hyz
            simp only [charListCmp, hxz]
          · have hxz : charCmp x z = Ordering.eq := by
              rw [show x = y from (charCmp_eq_iff x y).mp hxy]
              exact hyz
            simp only [charListCmp, hxz]
            exact ih h1 h2
          · simp at h2
        · simp at h1

theorem tokCmp_eq {a b : NToken} (h : tokCmp a b = some Ordering.eq) : a = b := by
  cases a <;> cases b <;> simp [tokCmp] at h ⊢
  · exact (clc_eq_iff _ _).mp h
  · exact (natCmp_eq_iff _ _).mp h

theorem tokCmp_lt_trans {a b c : NToken} (h1 : tokCmp a b = some Ordering.lt)
    (h2 : tokCmp b c = some Ordering.lt) : tokCmp a c = some Ordering.lt := by
  cases a <;> cases b <;> cases c <;> simp [tokCmp] at h1 h2 ⊢
  · exact clc_lt_trans h1 h2
  · rw [natCmp_lt_iff] at h1 h2 ⊢
    omega

theorem keyCmp_eq {k1 k2 : List NToken} (h : keyCmp k1 k2 = some Ordering.eq) :
    k1 = k2 := by
  induction k1 generalizing k2 with
  | nil => cases k2 <;> simp [keyCmp] at h ⊢
  | cons a as ih =>
    cases k2 with
    | nil => simp [keyCmp] at h
    | cons b bs =>
      simp only [keyCmp] at h
      rcases hab : tokCmp a b with _ | o <;> rw [hab] at h
      · simp at h
      · cases o with
        | lt => simp at h
        | gt => simp at h
        | eq => rw [tokCmp_eq hab, ih h]

theorem keyCmp_lt_trans {k1 k2 k3 : List NToken}
    (h1 : keyCmp k1 k2 = some Ordering.lt) (h2 : keyCmp k2 k3 = some Ordering.lt) :
    keyCmp k1 k3 = some Ordering.lt := by
  induction k1 generalizing k2 k3 with
  | nil =>
    cases k2 with
    | nil => simp [keyCmp] at h1
    | cons b bs =>
      cases k3 with
      | nil => simp [keyCmp] at h2
      | cons c cs => simp [keyCmp]
  | cons a as ih =>
    cases k2 with
    | nil => simp [keyCmp] at h1
    | cons b bs =>
      cases k3 with
      | nil => simp [keyCmp] at h2
      | cons c cs =>
        simp only [keyCmp] at h1 h2
        rcases hab : tokCmp a b with _ | o <;> rw [hab] at h1
        · simp at h1
        · rcases hbc : tokCmp b c with _ | o2 <;> rw [hbc] at h2
          · simp at h2
          · cases o with
            | gt => simp at h1
            | lt =>
              cases o2 with
              | gt => simp at h2
              | lt =>
                have hac := tokCmp_lt_trans hab hbc
                simp only [keyCmp, hac]
              | eq =>
                have hac : tokCmp a c = some Ordering.lt := by
                  rw [show c = b from (tokCmp_eq hbc).symm]
                  exact hab
                simp only [keyCmp, hac]
            | eq =>
              cases o2 with
              | gt => simp at h2
              | lt =>
                have hac : tokCmp a c = some Ordering.lt := by
                  rw [show a = b from tokCmp_eq hab]
                  exact hbc
                simp only [keyCmp, hac]
              | eq =>
                have hac : tokCmp a c = some Ordering.eq := by
                  rw [show a = b from tokCmp_eq hab]
                  exact hbc
                simp only [keyCmp, hac]
                exact ih h1 h2

theorem altKey_pairsToTokens (ps : List (Nat × List Char)) :
    AltKey false (pairsToTokens ps) := by
  induction ps with
  | nil => trivial
  | cons p ps ih => exact ih

theorem key_alt (s : String) : AltKey true (natural_sort_key s) := by
  unfold natural_sort_key
  exact altKey_pairsToTokens _

theorem keyCmp_total_alt :
    ∀ (b : Bool) (k1 k2 : List NToken), AltKey b k1 → AltKey b k2 →
      (keyCmp k1 k2).isSome = true := by
  intro b k1
  induction k1 generalizing b with
  | nil => intro k2 _ _; cases k2 <;> simp [keyCmp]
  | cons a as ih =>
    intro k2 h1 h2
    cases k2 with
    | nil => simp [keyCmp]
    | cons c cs =>
      cases b with
      | true =>
        cases a with
        | num n => exact absurd h1 (by simp [AltKey])
        | str sa =>
          cases c with
          | num m => exact absurd h2 (by simp [AltKey])
          | str sc =>
            simp only [keyCmp, tokCmp]
            rcases hcc : charListCmp sa sc with _ | _ | _ <;> simp
            exact ih false cs h1 h2
      | false =>
        cases a with
        | str sa => exact absurd h1 (by simp [AltKey])
        | num n =>
          cases c with
          | str sc => exact absurd h2 (by simp [AltKey])
          | num m =>
            simp only [keyCmp, tokCmp]
            rcases hcc : natCmp n m with _ | _ | _ <;> simp
            exact ih true cs h1 h2

/-- C2 (corrected). The claim asserts the induced ordering is a total
order on identifier strings; antisymmetry (equivalently trichotomy)
fails: `"01"` and `"1"` are distinct identifiers with equal sort keys,
so their comparison is `eq` and neither sorts strictly before the
other. -/
theorem natural_sort_not_antisymmetric :
    idCmp "01" "1" = some Ordering.eq ∧ ("01" : String) ≠ "1" ∧
      ¬ idLT "01" "1" ∧ ¬ idLT "1" "01" := by
  refine ⟨by decide, by decide, by decide, by decide⟩

/-- C2 (amended). The natural-sort comparison is total on identifier
strings (any two identifiers are comparable — in particular Python never
hits an `int`/`str` `TypeError` on these keys), the induced strict order
is transitive, and it is antisymmetric at the level of sort keys (equal
comparison forces equal keys), making it a total preorder on strings and
a total order on sort keys; embedded digit runs compare numerically:
`"1_2" < "1_10" < "2_1"`, `"2_9" < "2_10"`, `"2" < "10"`. -/
theorem natural_sort_total_preorder :
    (∀ s t : String, (idCmp s t).isSome = true) ∧
    (∀ s t u : String, idLT s t → idLT t u → idLT s u) ∧
    (∀ s t : String, idCmp s t = some Ordering.eq →
      natural_sort_key s = natural_sort_key t) ∧
    (idLT "1_2" "1_10" ∧ idLT "1_10" "2_1" ∧ idLT "2_9" "2_10" ∧ idLT "2" "10") := by
  refine ⟨?_, ?_, ?_, by decide, by decide, by decide, by decide⟩
  · intro s t
    exact keyCmp_total_alt true _ _ (key_alt s) (key_alt t)
  · intro s t u h1 h2
    exact keyCmp_lt_trans h1 h2
  · intro s t h
    exact keyCmp_eq h

/-- Witness: transitivity of the induced order applied at concrete
identifiers. -/
theorem natural_sort_total_preorder_witness : idLT "1_2" "2_1" :=
  natural_sort_total_preorder.2.1 "1_2" "1_10" "2_1" (by decide) (by decide)

/-! ### Lemmas: structured extraction -/

theorem firstIdx_concat {p : Char → Bool} (a : List Char) (c : Char) (t : List Char)
    (ha : ∀ x ∈ a, p x = false) (hc : p c = true) :
    firstIdx p (a ++ c :: t) = some a.length := by
  induction a with
  | nil => simp [firstIdx, hc]
  | cons y ys ih =>
    have hy : p y = false := ha y (by simp)
    have ih' := ih (fun x hx => ha x (by simp [hx]))
    simp [firstIdx, hy, ih']

theorem firstIdx_none {p : Char → Bool} (cs : List Char)
    (h : ∀ x ∈ cs, p x = false) : firstIdx p cs = none := by
  induction cs with
  | nil => rfl
  | cons y ys ih =>
    have hy : p y = false := h y (by simp)
    simp [firstIdx, hy, ih (fun x hx => h x (by simp [hx]))]

theorem braceSpan_embed (pre mid post : List Char)
    (hpre : ∀ c ∈ pre, (c == lbraceC) = false)
    (hpost : ∀ c ∈ post, (c == rbraceC) = false) :
    braceSpan (pre ++ (lbraceC :: mid ++ [rbraceC]) ++ post) =
      some (lbraceC :: mid ++ [rbraceC]) := by
  have hassoc : pre ++ (lbraceC :: mid ++ [rbraceC]) ++ post
      = pre ++ lbraceC :: (mid ++ [rbraceC] ++ post) := by simp
  have h1 : firstIdx (fun c => c == lbraceC)
      (pre ++ (lbraceC :: mid ++ [rbraceC]) ++ post) = some pre.length := by
    rw [hassoc]
    exact firstIdx_concat pre lbraceC _ hpre (by simp)
  have hrev : (pre ++ (lbraceC :: mid ++ [rbraceC]) ++ post).reverse
      = post.reverse ++ rbraceC :: (mid.reverse ++ lbraceC :: pre.reverse) := by
    simp
  have h2 : firstIdx (fun c => c == rbraceC)
      (pre ++ (lbraceC :: mid ++ [rbraceC]) ++ post).reverse
        = some post.length := by
    rw [hrev]
    have := firstIdx_concat post.reverse rbraceC (mid.reverse ++ lbraceC :: pre.reverse)
      (fun x hx => hpost x (List.mem_reverse.mp hx)) (by simp)
    simpa using this
  have hlen : (pre ++ (lbraceC :: mid ++ [rbraceC]) ++ post).length
      = pre.length + mid.length + 2 + post.length := by
    simp; omega
  unfold braceSpan
  simp only [h1, h2, hlen]
  have hj : pre.length + mid.length + 2 + post.length - 1 - post.length
      = pre.length + (mid.length + 1) := by omega
  rw [hj, if_pos (by omega)]
  have harith : pre.length + (mid.length + 1) - pre.length + 1
      = (lbraceC :: mid ++ [rbraceC]).length := by
    simp only [List.length_cons, List.length_append, List.length_nil]
    omega
  rw [harith]
  have hdrop : (pre ++ (lbraceC :: mid ++ [rbraceC]) ++ post).drop pre.length
      = (lbraceC :: mid ++ [rbraceC]) ++ post := by
    rw [List.append_assoc]
    exact List.drop_left pre _
  rw [hdrop, List.take_left]

/-- C3 (counterexample). A response text that contains exactly one valid
JSON object can still fail extraction when the surrounding prose itself
contains a brace: the greedy span runs to the rightmost closing brace
and no longer parses, so the function returns `None` instead of the
embedded mapping. -/
theorem extract_prose_brace_cex :
    extract_json_from_text
        ((lbraceC :: "\"a\": true".toList ++ [rbraceC]) ++ ' ' :: 'x' :: [rbraceC]) = none
      ∧ jsonParse (lbraceC :: "\"a\": true".toList ++ [rbraceC])
          = some (JsonValue.obj [("a", JsonValue.bool true)]) :=
  ⟨rfl, rfl⟩

/-- C3 (amended). For every response text of the form
`pre ++ object ++ post` where the object text starts with the opening
brace and ends with the closing brace and parses as a JSON mapping, the
prose `pre` contains no opening brace and the prose `post` no closing
brace, extraction returns the embedded mapping unchanged; and every
response text containing no opening brace fails with `NoObjectFound`. -/
theorem extract_embedded_object :
    (∀ (pre mid post : List Char) (m : List (String × JsonValue)),
        (∀ c ∈ pre, c ≠ lbraceC) →
        (∀ c ∈ post, c ≠ rbraceC) →
        jsonParse (lbraceC :: mid ++ [rbraceC]) = some (JsonValue.obj m) →
        extract_json_from_text (pre ++ (lbraceC :: mid ++ [rbraceC]) ++ post)
          = some (JsonValue.obj m)) ∧
    (∀ cs : List Char, (∀ c ∈ cs, c ≠ lbraceC) →
        extract_json_full cs = ExtractResult.noObjectFound) := by
  constructor
  · intro pre mid post m hpre hpost hparse
    have hb := braceSpan_embed pre mid post
      (fun c hc => by simp [hpre c hc])
      (fun c hc => by simp [hpost c hc])
    unfold extract_json_from_text extract_json_full
    simp only [hb, hparse]
  · intro cs h
    have hb : firstIdx (fun c => c == lbraceC) cs = none :=
      firstIdx_none cs (fun x hx => by simp [h x hx])
    unfold extract_json_full braceSpan
    simp only [hb]

/-- Witness for the amended C3 at a concrete prose-wrapped object. -/
theorem extract_embedded_object_witness :
    extract_json_from_text
        ("Result: ".toList ++ (lbraceC :: "\"a\": true".toList ++ [rbraceC])
          ++ " done.".toList)
      = some (JsonValue.obj [("a", JsonValue.bool true)]) ∧
    extract_json_full "no object here".toList = ExtractResult.noObjectFound := by
  constructor
  · exact extract_embedded_object.1 "Result: ".toList "\"a\": true".toList
      " done.".toList _ (by decide) (by decide) (by rfl)
  · exact extract_embedded_object.2 "no object here".toList (by decide)

/-- C4. Extraction fails with `NoObjectFound` exactly when no
leftmost-open-brace-to-rightmost-close-brace span exists, and with
`MalformedJSON` exactly when the span exists but does not parse; the
`MalformedJSON` outcome carries that very span (the source logs it as
"Content that failed to parse"), so it is available for diagnostics. -/
theorem extract_failure_taxonomy :
    ∀ cs : List Char,
      (extract_json_full cs = ExtractResult.noObjectFound ↔ braceSpan cs = none) ∧
      (∀ sp : List Char,
        extract_json_full cs = ExtractResult.malformedJSON sp ↔
          braceSpan cs = some sp ∧ jsonParse sp = none) := by
  intro cs
  unfold extract_json_full
  rcases h : braceSpan cs with _ | sp2
  · simp
  · rcases h2 : jsonParse sp2 with _ | v
    · constructor
      · simp only [h2]
        simp
      · intro sp
        simp only [h2]
        constructor
        · intro he
          injection he with hsp
          subst hsp
          exact ⟨rfl, h2⟩
        · rintro ⟨hb, hp⟩
          injection hb with hsp
          rw [hsp]
    · constructor
      · simp only [h2]
        simp
      · intro sp
        simp only [h2]
        constructor
        · intro he
          exact absurd he (by simp)
        · rintro ⟨hb, hp⟩
          injection hb with hsp
          subst hsp
          rw [h2] at hp
          exact absurd hp (by simp)

/-- C10. `extract_json_from_text` is total (it is a function into
`Option`): it returns the parsed mapping exactly on the success branch,
and `None` exactly on the two failure branches — no span, or a span
whose parse fails (the `json.JSONDecodeError` handler) — so no exception
escapes to the caller. -/
theorem extract_none_iff :
    ∀ cs : List Char,
      (extract_json_from_text cs = none ↔
        extract_json_full cs = ExtractResult.noObjectFound ∨
          ∃ sp, extract_json_full cs = ExtractResult.malformedJSON sp) ∧
      (∀ v, extract_json_from_text cs = some v ↔
        extract_json_full cs = ExtractResult.success v) := by
  intro cs
  unfold extract_json_from_text
  rcases h : extract_json_full cs with v | _ | sp <;> simp

/-- Witness for C4 at a concrete brace-free text. -/
theorem extract_failure_taxonomy_witness :
    extract_json_full "plain prose".toList = ExtractResult.noObjectFound :=
  ((extract_failure_taxonomy "plain prose".toList).1).mpr (by rfl)

/-- Witness for C10 at a concrete brace-free text. -/
theorem extract_none_iff_witness :
    extract_json_from_text "plain text only".toList = none :=
  ((extract_none_iff "plain text only".toList).1).mpr (Or.inl (by rfl))

/-! ### Lemmas: the aggregation pipeline -/

theorem collectStep_append (a b : List String) (pg : Option PyDict) :
    collectStep (a ++ b) pg = a ++ collectStep b pg := by
  cases pg <;> simp [collectStep]

theorem collect_fold (inst : List (Option PyDict)) :
    ∀ ks0 : List String,
      inst.foldl collectStep ks0 = ks0 ++ collectKeys inst := by
  induction inst with
  | nil => intro ks0; simp [collectKeys]
  | cons pg rest ih =>
    intro ks0
    rw [List.foldl_cons, ih]
    have hr : collectKeys (pg :: rest) = collectStep [] pg ++ collectKeys rest := by
      unfold collectKeys
      rw [List.foldl_cons, ih]
      rfl
    rw [hr]
    rw [show collectStep ks0 pg = ks0 ++ collectStep [] pg from by
      have := collectStep_append ks0 [] pg
      simpa using this]
    simp [List.append_assoc]

theorem pageStep_split (k : Nat) (acc : PyDict × List String) (pg : Option PyDict) :
    pageStep k acc pg =
      (mergeStep acc.1 pg, if k == 0 then collectStep acc.2 pg else acc.2) := by
  cases pg with
  | none =>
    simp only [pageStep, mergeStep, collectStep]
    split <;> rfl
  | some d => rfl

theorem pageFold_spec (k : Nat) (inst : List (Option PyDict)) :
    ∀ (sd : PyDict) (ks : List String),
      inst.foldl (pageStep k) (sd, ks) =
        (mergeFrom sd inst, if k == 0 then ks ++ collectKeys inst else ks) := by
  induction inst with
  | nil =>
    intro sd ks
    simp only [List.foldl_nil, mergeFrom]
    split <;> simp [collectKeys]
  | cons pg rest ih =>
    intro sd ks
    rw [List.foldl_cons, pageStep_split, ih]
    unfold mergeFrom
    rw [List.foldl_cons]
    cases hk : k == 0 with
    | true =>
      simp only [if_pos rfl]
      rw [show collectStep ks pg = ks ++ collectStep [] pg from by
        have := collectStep_append ks [] pg
        simpa using this]
      have hr : collectKeys (pg :: rest) = collectStep [] pg ++ collectKeys rest := by
        unfold collectKeys
        rw [List.foldl_cons, collect_fold]
        rfl
      rw [hr]
      simp [List.append_assoc]
    | false => simp

theorem dictSet_WT {m : PyDict} {k : String} {v : JsonValue}
    (hm : WTDict m) (hv : isObj v = true) : WTDict (dictSet m k v) := by
  unfold dictSet
  split
  · intro p hp
    obtain ⟨q, hq, hpe⟩ := List.mem_map.mp hp
    by_cases hqk : (q.1 == k) = true
    · rw [if_pos hqk] at hpe
      rw [← hpe]
      exact hv
    · rw [if_neg hqk] at hpe
      rw [← hpe]
      exact hm q hq
  · intro p hp
    rcases List.mem_append.mp hp with h1 | h1
    · exact hm p h1
    · have : p = (k, v) := by simpa using h1
      rw [this]
      exact hv

theorem dictUpdate_WT : ∀ (b a : PyDict), WTDict a → WTDict b → WTDict (dictUpdate a b) := by
  intro b
  induction b with
  | nil => intro a ha _; exact ha
  | cons p bs ih =>
    intro a ha hb
    unfold dictUpdate
    rw [List.foldl_cons]
    exact ih (dictSet a p.1 p.2) (dictSet_WT ha (hb p (by simp)))
      (fun q hq => hb q (by simp [hq]))

theorem mergeFrom_WT : ∀ (inst : List (Option PyDict)) (sd : PyDict),
    WTDict sd → (∀ pg ∈ inst, WTPage pg) → WTDict (mergeFrom sd inst) := by
  intro inst
  induction inst with
  | nil => intro sd hsd _; exact hsd
  | cons pg rest ih =>
    intro sd hsd hw
    unfold mergeFrom
    rw [List.foldl_cons]
    have h1 : WTDict (mergeStep sd pg) := by
      cases pg with
      | none => exact hsd
      | some d => exact dictUpdate_WT d sd hsd (hw (some d) (by simp))
    exact ih (mergeStep sd pg) h1 (fun q hq => hw q (by simp [hq]))

theorem WTDict_nil : WTDict [] := by
  intro p hp
  exact absurd hp (List.not_mem_nil p)

theorem cellOf_WT {sd : PyDict} (hw : WTDict sd) (q : String) :
    cellOf sd q = .ok (specAnswerCell sd q) := by
  unfold cellOf specAnswerCell
  rcases h : dictGet? sd q with _ | v
  · rfl
  · have hv : isObj v = true := by
      unfold dictGet? at h
      rcases hf : sd.find? (fun p => p.1 == q) with _ | p
      · rw [hf] at h; simp at h
      · rw [hf] at h
        simp at h
        rw [← h]
        exact hw p (List.mem_of_find?_eq_some hf)
    cases v with
    | obj e => rfl
    | null => exact absurd hv (by simp [isObj])
    | bool b => exact absurd hv (by simp [isObj])
    | str s => exact absurd hv (by simp [isObj])
    | num n => exact absurd hv (by simp [isObj])
    | flt f => exact absurd hv (by simp [isObj])
    | arr xs => exact absurd hv (by simp [isObj])

theorem materializeRow_WT {sd : PyDict} (hw : WTDict sd) :
    ∀ qs : List String, materializeRow qs sd = .ok (qs.map (specAnswerCell sd)) := by
  intro qs
  induction qs with
  | nil => rfl
  | cons q rest ih =>
    unfold materializeRow
    simp only [cellOf_WT hw q, ih, List.map_cons]

theorem runInstances_cons (inst : List (Option PyDict))
    (rest : List (List (Option PyDict))) (k : Nat) (st : PState) :
    runInstances (inst :: rest) k st =
      match stepInstance k st inst with
      | .ok st' => runInstances rest (k + 1) st'
      | .error e => .error e := rfl

theorem stepInstance_pos {k : Nat} (hk : k ≠ 0) (st : PState)
    (inst : List (Option PyDict)) (hw : ∀ pg ∈ inst, WTPage pg) :
    stepInstance k st inst =
      .ok ⟨st.qs, st.rows ++
        [JsonValue.num (Int.ofNat (k + 1)) ::
          st.qs.map (specAnswerCell (mergeInstance inst))]⟩ := by
  have hk' : (k == 0) = false := by simp [hk]
  have hmerge : WTDict (mergeInstance inst) := mergeFrom_WT inst [] WTDict_nil hw
  unfold stepInstance
  rw [pageFold_spec]
  simp only [hk', Bool.false_eq_true, if_false]
  rw [show mergeFrom [] inst = mergeInstance inst from rfl]
  rw [materializeRow_WT hmerge st.qs]

theorem stepInstance_zero (inst : List (Option PyDict))
    (hw : ∀ pg ∈ inst, WTPage pg) :
    stepInstance 0 ⟨[], []⟩ inst =
      .ok ⟨buildSchema inst,
        [JsonValue.num (Int.ofNat 1) ::
          (buildSchema inst).map (specAnswerCell (mergeInstance inst))]⟩ := by
  have hmerge : WTDict (mergeInstance inst) := mergeFrom_WT inst [] WTDict_nil hw
  unfold stepInstance
  rw [pageFold_spec]
  simp only [beq_self_eq_true, if_true, List.nil_append]
  rw [show mergeFrom [] inst = mergeInstance inst from rfl]
  rw [show sortIds (pyDedup (collectKeys inst)) = buildSchema inst from rfl]
  rw [materializeRow_WT hmerge]

theorem runInstances_cons_ok {inst : List (Option PyDict)}
    {rest : List (List (Option PyDict))} {k : Nat} {st st1 : PState}
    (h : stepInstance k st inst = .ok st1) :
    runInstances (inst :: rest) k st = runInstances rest (k + 1) st1 := by
  rw [runInstances_cons, h]

theorem process_pdf_pos {L : Nat} {pages : List (Option PyDict)} {st : PState}
    (hL : ¬ L = 0)
    (h : runInstances (instancesOf L pages) 0 ⟨[], []⟩ = .ok st) :
    process_pdf L pages = .ok ("response_id" :: st.qs, st.rows) := by
  unfold process_pdf
  rw [if_neg hL, h]

theorem runInstances_closed :
    ∀ (insts : List (List (Option PyDict))) (k : Nat) (st : PState),
      k ≠ 0 → (∀ inst ∈ insts, ∀ pg ∈ inst, WTPage pg) →
      runInstances insts k st = .ok ⟨st.qs, st.rows ++ rowsFrom st.qs k insts⟩ := by
  intro insts
  induction insts with
  | nil =>
    intro k st _ _
    simp [runInstances, rowsFrom]
  | cons inst rest ih =>
    intro k st hk hw
    rw [runInstances_cons_ok (stepInstance_pos hk st inst (hw inst (by simp)))]
    rw [ih (k + 1) _ (by omega) (fun i hi => hw i (by simp [hi]))]
    simp [rowsFrom, List.append_assoc]

theorem chunkGo_subset {α : Type} :
    ∀ (f Lm1 : Nat) (l : List α) (inst : List α),
      inst ∈ chunkGo f Lm1 l → ∀ x ∈ inst, x ∈ l := by
  intro f
  induction f with
  | zero =>
    intro Lm1 l inst h
    cases l <;> simp [chunkGo] at h
  | succ f ih =>
    intro Lm1 l inst h
    cases l with
    | nil => simp [chunkGo] at h
    | cons p ps =>
      simp only [chunkGo] at h
      rcases List.mem_cons.mp h with h1 | h1
      · subst h1
        intro x hx
        exact List.take_subset _ _ hx
      · intro x hx
        exact List.mem_cons_of_mem p (List.drop_subset _ _ (ih Lm1 (ps.drop Lm1) inst h1 x hx))

theorem process_pdf_closed (L : Nat) (pages : List (Option PyDict)) (hL : 0 < L)
    (hw : WTPages pages) :
    process_pdf L pages =
      .ok ("response_id" :: buildSchema ((instancesOf L pages).headD []),
        rowsFrom (buildSchema ((instancesOf L pages).headD [])) 0
          (instancesOf L pages)) := by
  have hwc : ∀ inst ∈ instancesOf L pages, ∀ pg ∈ inst, WTPage pg := by
    intro inst hi pg hp
    exact hw pg (chunkGo_subset _ _ _ inst hi pg hp)
  rcases hins : instancesOf L pages with _ | ⟨fi, rest⟩
  · have h : runInstances (instancesOf L pages) 0 ⟨[], []⟩ = .ok ⟨[], []⟩ := by
      rw [hins]; rfl
    rw [process_pdf_pos (by omega) h]
    simp [rowsFrom, buildSchema, collectKeys, pyDedup, sortIds]
  · have hw1 : ∀ pg ∈ fi, WTPage pg := hwc fi (by rw [hins]; simp)
    have hw2 : ∀ i ∈ rest, ∀ pg ∈ i, WTPage pg := fun i hi => hwc i (by rw [hins]; simp [hi])
    have hrun : runInstances (instancesOf L pages) 0 ⟨[], []⟩ =
        .ok ⟨buildSchema fi,
          [JsonValue.num (Int.ofNat 1) ::
            (buildSchema fi).map (specAnswerCell (mergeInstance fi))]
          ++ rowsFrom (buildSchema fi) 1 rest⟩ := by
      rw [hins, runInstances_cons_ok (stepInstance_zero fi hw1)]
      exact runInstances_closed rest 1 _ (by omega) hw2
    rw [process_pdf_pos (by omega) hrun]
    simp [rowsFrom]

theorem stepInstance_pos_nilqs {k : Nat} (hk : k ≠ 0) (st : PState)
    (hqs : st.qs = []) (inst : List (Option PyDict)) :
    stepInstance k st inst =
      .ok ⟨[], st.rows ++ [[JsonValue.num (Int.ofNat (k + 1))]]⟩ := by
  have hk' : (k == 0) = false := by simp [hk]
  unfold stepInstance
  rw [pageFold_spec]
  simp only [hk', Bool.false_eq_true, if_false, hqs]
  rfl

theorem runInstances_nilqs :
    ∀ (insts : List (List (Option PyDict))) (k : Nat) (st : PState),
      k ≠ 0 → st.qs = [] →
      runInstances insts k st = .ok ⟨[], st.rows ++ rowsFrom [] k insts⟩ := by
  intro insts
  induction insts with
  | nil =>
    intro k st _ hqs
    simp [runInstances, rowsFrom, ← hqs]
  | cons inst rest ih =>
    intro k st hk hqs
    rw [runInstances_cons_ok (stepInstance_pos_nilqs hk st hqs inst)]
    rw [ih (k + 1) _ (by omega) rfl]
    simp [rowsFrom, List.append_assoc]

theorem stepInstance_zero_nokeys (inst : List (Option PyDict))
    (hkeys : collectKeys inst = []) :
    stepInstance 0 ⟨[], []⟩ inst = .ok ⟨[], [[JsonValue.num (Int.ofNat 1)]]⟩ := by
  unfold stepInstance
  rw [pageFold_spec]
  simp only [beq_self_eq_true, if_true, List.nil_append, hkeys]
  rfl

theorem rowsFrom_nilqs_shape :
    ∀ (insts : List (List (Option PyDict))) (k : Nat),
      ∀ r ∈ rowsFrom [] k insts, ∃ n : Nat, r = [JsonValue.num (Int.ofNat n)] := by
  intro insts
  induction insts with
  | nil => intro k r hr; simp [rowsFrom] at hr
  | cons inst rest ih =>
    intro k r hr
    rcases List.mem_cons.mp hr with h1 | h1
    · exact ⟨k + 1, by simp [h1]⟩
    · exact ih (k + 1) r h1

theorem dictGet?_cons (p : String × JsonValue) (m : PyDict) (q : String) :
    dictGet? (p :: m) q = if (p.1 == q) = true then some p.2 else dictGet? m q := by
  unfold dictGet?
  rw [List.find?]
  split <;> simp_all

theorem dictGet?_map_set (ms : PyDict) (k q : String) (v : JsonValue) (hqk : q ≠ k) :
    dictGet? (ms.map (fun p => if p.1 == k then (k, v) else p)) q = dictGet? ms q := by
  induction ms with
  | nil => rfl
  | cons p ms ih =>
    simp only [List.map_cons]
    by_cases hpk : (p.1 == k) = true
    · rw [if_pos hpk, dictGet?_cons, dictGet?_cons]
      have h1 : ((k, v).1 == q) = false := by
        simp
        exact fun he => hqk he.symm
      have h2 : (p.1 == q) = false := by
        rw [beq_iff_eq.mp hpk]
        simp
        exact fun he => hqk he.symm
      rw [h1, h2]
      simp only [Bool.false_eq_true, if_false]
      exact ih
    · rw [if_neg hpk, dictGet?_cons, dictGet?_cons]
      by_cases hpq : (p.1 == q) = true
      · rw [hpq]
        rfl
      · rw [show (p.1 == q) = false from by simpa using hpq]
        simp only [Bool.false_eq_true, if_false]
        exact ih

theorem dictGet?_map_set_hit (ms : PyDict) (k : String) (v : JsonValue)
    (hms : ms.any (fun r => r.1 == k) = true) :
    dictGet? (ms.map (fun p => if p.1 == k then (k, v) else p)) k = some v := by
  induction ms with
  | nil => simp at hms
  | cons p ms ih =>
    simp only [List.map_cons]
    by_cases hpk : (p.1 == k) = true
    · rw [if_pos hpk, dictGet?_cons]
      simp
    · rw [if_neg hpk, dictGet?_cons]
      rw [show (p.1 == k) = false from by simpa using hpk]
      simp only [Bool.false_eq_true, if_false]
      apply ih
      simp only [List.any_cons, hpk] at hms
      simpa using hms

theorem dictGet?_append_miss (m : PyDict) (k q : String) (v : JsonValue) (hqk : q ≠ k) :
    dictGet? (m ++ [(k, v)]) q = dictGet? m q := by
  induction m with
  | nil =>
    simp only [List.nil_append]
    rw [dictGet?_cons]
    have : ((k, v).1 == q) = false := by
      simp
      exact fun he => hqk he.symm
    rw [this]
    rfl
  | cons p ms ih =>
    simp only [List.cons_append]
    rw [dictGet?_cons, dictGet?_cons]
    split
    · rfl
    · exact ih

theorem dictGet?_append_hit (m : PyDict) (k : String) (v : JsonValue)
    (hm : m.any (fun r => r.1 == k) = false) :
    dictGet? (m ++ [(k, v)]) k = some v := by
  induction m with
  | nil =>
    simp only [List.nil_append]
    rw [dictGet?_cons]
    simp
  | cons p ms ih =>
    simp only [List.cons_append]
    rw [dictGet?_cons]
    simp only [List.any_cons] at hm
    have hp : (p.1 == k) = false := by
      rcases Bool.or_eq_false_iff.mp hm with ⟨h1, _⟩
      exact h1
    rw [hp]
    simp only [Bool.false_eq_true, if_false]
    exact ih (Bool.or_eq_false_iff.mp hm).2

theorem dictGet?_set (m : PyDict) (k : String) (v : JsonValue) (q : String) :
    dictGet? (dictSet m k v) q = if q = k then some v else dictGet? m q := by
  unfold dictSet
  by_cases hq : q = k
  · subst hq
    rw [if_pos rfl]
    by_cases hany : m.any (fun p => p.1 == q) = true
    · rw [if_pos hany]
      exact dictGet?_map_set_hit m q v hany
    · rw [if_neg hany]
      exact dictGet?_append_hit m q v (Bool.eq_false_iff.mpr hany)
  · rw [if_neg hq]
    by_cases hany : m.any (fun p => p.1 == k) = true
    · rw [if_pos hany]
      exact dictGet?_map_set m k q v hq
    · rw [if_neg hany]
      exact dictGet?_append_miss m k q v hq

theorem dictGet?_none_of_not_mem (m : PyDict) (k : String)
    (h : ∀ p ∈ m, p.1 ≠ k) : dictGet? m k = none := by
  induction m with
  | nil => rfl
  | cons p ms ih =>
    rw [dictGet?_cons]
    rw [show (p.1 == k) = false from by
      simp
      exact h p (by simp)]
    simp only [Bool.false_eq_true, if_false]
    exact ih (fun q hq => h q (by simp [hq]))

theorem dictGet?_update :
    ∀ (b a : PyDict), (b.map (fun p => p.1)).Nodup →
      ∀ q, dictGet? (dictUpdate a b) q =
        match dictGet? b q with
        | some v => some v
        | none => dictGet? a q := by
  intro b
  induction b with
  | nil => intro a _ q; rfl
  | cons p bs ih =>
    intro a hnd q
    have hnd' : (bs.map (fun p => p.1)).Nodup :=
      (List.nodup_cons.mp (by simpa using hnd)).2
    have hnotin : p.1 ∉ bs.map (fun r => r.1) :=
      (List.nodup_cons.mp (by simpa using hnd)).1
    unfold dictUpdate
    rw [List.foldl_cons]
    rw [show List.foldl (fun acc r => dictSet acc r.1 r.2) (dictSet a p.1 p.2) bs
        = dictUpdate (dictSet a p.1 p.2) bs from rfl]
    rw [ih (dictSet a p.1 p.2) hnd' q]
    rw [dictGet?_cons]
    by_cases hq : q = p.1
    · subst hq
      have hbs : dictGet? bs p.1 = none := by
        apply dictGet?_none_of_not_mem
        intro r hr he
        exact hnotin (by rw [← he]; exact List.mem_map_of_mem _ hr)
      rw [hbs]
      rw [show (p.1 == p.1) = true from by simp]
      simp only [if_true]
      rw [dictGet?_set]
      simp
    · rw [show (p.1 == q) = false from by
        simp
        exact fun he => hq he.symm]
      simp only [Bool.false_eq_true, if_false]
      rcases hbs : dictGet? bs q with _ | v
      · rw [dictGet?_set]
        rw [if_neg hq]
      · rfl

theorem firstHit_append (q : String) (l1 l2 : List PyDict) :
    firstHit q (l1 ++ l2) =
      match firstHit q l1 with
      | some v => some v
      | none => firstHit q l2 := by
  induction l1 with
  | nil => rfl
  | cons d ds ih =>
    simp only [List.cons_append, firstHit]
    rcases h : dictGet? d q with _ | v
    · exact ih
    · rfl

theorem mergeFrom_lookup :
    ∀ (inst : List (Option PyDict)) (sd : PyDict) (q : String),
      (∀ pg ∈ inst, NodupKeysPage pg) →
      dictGet? (mergeFrom sd inst) q =
        match specMergeLookup inst q with
        | some v => some v
        | none => dictGet? sd q := by
  intro inst
  induction inst with
  | nil => intro sd q _; rfl
  | cons pg rest ih =>
    intro sd q hnd
    unfold mergeFrom
    rw [List.foldl_cons]
    rw [show List.foldl mergeStep (mergeStep sd pg) rest
        = mergeFrom (mergeStep sd pg) rest from rfl]
    rw [ih (mergeStep sd pg) q (fun r hr => hnd r (by simp [hr]))]
    cases pg with
    | none =>
      have hsp : specMergeLookup (none :: rest) q = specMergeLookup rest q := by
        unfold specMergeLookup
        simp [List.filterMap_cons]
      rw [hsp]
      rfl
    | some d =>
      have hsp : specMergeLookup (some d :: rest) q =
          match specMergeLookup rest q with
          | some v => some v
          | none => dictGet? d q := by
        unfold specMergeLookup
        simp only [List.filterMap_cons]
        rw [show (id (some d) : Option PyDict) = some d from rfl]
        rw [List.reverse_cons, firstHit_append]
        rcases h : firstHit q (List.filterMap id rest).reverse with _ | v
        · simp only [firstHit]
          rcases h2 : dictGet? d q with _ | w <;> rfl
        · rfl
      rw [hsp]
      have hupd : dictGet? (mergeStep sd (some d)) q =
          match dictGet? d q with
          | some v => some v
          | none => dictGet? sd q := by
        exact dictGet?_update d sd (hnd (some d) (by simp)) q
      rw [hupd]
      rcases h1 : specMergeLookup rest q with _ | v
      · rfl
      · rfl

/-- C8. A survey instance's answer set is the union-merge of its
surviving pages' answer sets in page order: every lookup returns the
value from the last surviving page binding that identifier (later pages
overwrite earlier ones on collision), and is absent exactly when no
surviving page binds it. -/
theorem mergeInstance_lookup (inst : List (Option PyDict)) (q : String)
    (hnd : NodupPages inst) :
    dictGet? (mergeInstance inst) q = specMergeLookup inst q := by
  rw [show mergeInstance inst = mergeFrom [] inst from rfl]
  rw [mergeFrom_lookup inst [] q hnd]
  rcases h : specMergeLookup inst q with _ | v <;> rfl

theorem rowsFrom_length (qs : List String) :
    ∀ (k : Nat) (insts : List (List (Option PyDict))),
      (rowsFrom qs k insts).length = insts.length := by
  intro k insts
  induction insts generalizing k with
  | nil => rfl
  | cons inst rest ih => simp [rowsFrom, ih]

theorem stepInstance_pos_qs {k : Nat} {st : PState} {inst : List (Option PyDict)}
    {st' : PState} (hk : k ≠ 0) (h : stepInstance k st inst = .ok st') :
    st'.qs = st.qs := by
  unfold stepInstance at h
  rw [pageFold_spec] at h
  rw [show (k == 0) = false from by simp [hk]] at h
  simp only [Bool.false_eq_true, if_false] at h
  cases hm : materializeRow st.qs (mergeFrom [] inst) with
  | ok cells =>
    simp only [hm] at h
    injection h with h2
    rw [← h2]
  | error e =>
    simp only [hm] at h
    exact absurd h (by simp)

theorem stepInstance_zero_qs {st : PState} {inst : List (Option PyDict)}
    {st' : PState} (h : stepInstance 0 st inst = .ok st') :
    st'.qs = sortIds (pyDedup (st.qs ++ collectKeys inst)) := by
  unfold stepInstance at h
  rw [pageFold_spec] at h
  simp only [beq_self_eq_true, if_true] at h
  cases hm : materializeRow (sortIds (pyDedup (st.qs ++ collectKeys inst)))
      (mergeFrom [] inst) with
  | ok cells =>
    simp only [hm] at h
    injection h with h2
    rw [← h2]
  | error e =>
    simp only [hm] at h
    exact absurd h (by simp)

theorem runInstances_qs :
    ∀ (insts : List (List (Option PyDict))) (k : Nat) (st st' : PState),
      1 ≤ k → runInstances insts k st = .ok st' → st'.qs = st.qs := by
  intro insts
  induction insts with
  | nil =>
    intro k st st' _ h
    unfold runInstances at h
    injection h with h2
    rw [← h2]
  | cons inst rest ih =>
    intro k st st' hk h
    rw [runInstances_cons] at h
    cases hs : stepInstance k st inst with
    | ok st1 =>
      simp only [hs] at h
      rw [ih (k + 1) st1 st' (by omega) h]
      exact stepInstance_pos_qs (by omega) hs
    | error e =>
      simp only [hs] at h
      exact absurd h (by simp)

/-- C5. The question schema is written exactly once: processing the
first instance (ordinal 0) sets it to the sorted deduplicated union of
that instance's keys, and every later instance — whatever new
identifiers its pages introduce — leaves it unchanged, both per step
and across any successful tail of the run. -/
theorem schema_write_once :
    (∀ (k : Nat) (st : PState) (inst : List (Option PyDict)) (st' : PState),
        k ≠ 0 → stepInstance k st inst = .ok st' → st'.qs = st.qs) ∧
    (∀ (insts : List (List (Option PyDict))) (k : Nat) (st st' : PState),
        1 ≤ k → runInstances insts k st = .ok st' → st'.qs = st.qs) ∧
    (∀ (st : PState) (inst : List (Option PyDict)) (st' : PState),
        stepInstance 0 st inst = .ok st' →
          st'.qs = sortIds (pyDedup (st.qs ++ collectKeys inst))) :=
  ⟨fun _ _ _ _ hk h => stepInstance_pos_qs hk h,
   fun insts k st st' hk h => runInstances_qs insts k st st' hk h,
   fun _ _ _ h => stepInstance_zero_qs h⟩

/-- Witness: a non-first instance leaves a concrete schema intact. -/
theorem schema_write_once_witness :
    (PState.mk ["a"] [[JsonValue.num 2, JsonValue.str ""]]).qs
      = (PState.mk ["a"] []).qs :=
  schema_write_once.1 1 ⟨["a"], []⟩ [none]
    ⟨["a"], [[JsonValue.num 2, JsonValue.str ""]]⟩ (by omega) (by rfl)

/-- C6. For a survey answer set (values are AnswerEntry objects, as the
data model types them) and a fixed schema of length `k`, materialization
never fails and produces exactly `k` cells in schema order: at position
`i` the `answer` field of the entry at `schema[i]` when present, else
the empty-string placeholder — also when the entry merely lacks the
`answer` key. -/
theorem row_materializer_total (sd : PyDict) (qs : List String) (hw : WTDict sd) :
    materializeRow qs sd = .ok (qs.map (specAnswerCell sd)) ∧
      (qs.map (specAnswerCell sd)).length = qs.length :=
  ⟨materializeRow_WT hw qs, by simp⟩

/-- Witness: a concrete answer set with a present `answer`, an absent
identifier, and an entry lacking the key. -/
theorem row_materializer_total_witness :
    materializeRow ["1_1", "9"]
        [("1_1", JsonValue.obj [("answer", JsonValue.bool true)]),
         ("bad", JsonValue.obj [])]
      = .ok [JsonValue.bool true, JsonValue.str ""] :=
  ((row_materializer_total
      [("1_1", JsonValue.obj [("answer", JsonValue.bool true)]),
       ("bad", JsonValue.obj [])] ["1_1", "9"] (by decide)).1).trans (by rfl)

/-- C7. For every page sequence whose surviving pages are well-typed
answer sets and every positive `survey_length`, failed pages never abort
anything: the run completes with `ok`, each instance (the final short
one included) contributes exactly one row, and each row is materialized
from the union-merge of that instance's surviving pages against the
schema of instance 1, failed pages contributing nothing and absent
answers becoming the empty string. -/
theorem aggregator_partial_failure (L : Nat) (pages : List (Option PyDict))
    (hL : 0 < L) (hw : WTPages pages) :
    process_pdf L pages =
      .ok ("response_id" :: buildSchema ((instancesOf L pages).headD []),
        rowsFrom (buildSchema ((instancesOf L pages).headD [])) 0
          (instancesOf L pages)) ∧
    (rowsFrom (buildSchema ((instancesOf L pages).headD [])) 0
        (instancesOf L pages)).length = (instancesOf L pages).length :=
  ⟨process_pdf_closed L pages hL hw, rowsFrom_length _ _ _⟩

/-- Witness: a failed page inside instance 1 and a short final
instance, at `survey_length = 2`. -/
theorem aggregator_partial_failure_witness :
    process_pdf 2
        [some [("1", JsonValue.obj [("answer", JsonValue.str "A")])], none,
         some [("2", JsonValue.obj [("answer", JsonValue.str "B")])]]
      = .ok (["response_id", "1"],
          [[JsonValue.num 1, JsonValue.str "A"],
           [JsonValue.num 2, JsonValue.str ""]]) :=
  ((aggregator_partial_failure 2
      [some [("1", JsonValue.obj [("answer", JsonValue.str "A")])], none,
       some [("2", JsonValue.obj [("answer", JsonValue.str "B")])]]
      (by omega) (by decide)).1).trans (by rfl)

/-- Witness: a key bound on two pages resolves to the later page's
value. -/
theorem merge_union_witness :
    dictGet? (mergeInstance
        [some [("a", JsonValue.str "1")], none, some [("a", JsonValue.str "2")]]) "a"
      = some (JsonValue.str "2") :=
  (mergeInstance_lookup
      [some [("a", JsonValue.str "1")], none, some [("a", JsonValue.str "2")]] "a"
      (by decide)).trans (by rfl)

/-- C9. If instance 1 yields zero question identifiers (for example
because every page extraction failed), the run still succeeds: the
schema is the empty sequence, the header is just `response_id`, and
every output row consists of only the response id, with zero answer
columns. -/
theorem survey_empty_schema (L : Nat) (pages : List (Option PyDict)) (hL : 0 < L)
    (hkeys : collectKeys ((instancesOf L pages).headD []) = []) :
    process_pdf L pages = .ok (["response_id"], rowsFrom [] 0 (instancesOf L pages)) ∧
    (∀ r ∈ rowsFrom [] 0 (instancesOf L pages),
      ∃ n : Nat, r = [JsonValue.num (Int.ofNat n)]) := by
  constructor
  · rcases hins : instancesOf L pages with _ | ⟨fi, rest⟩
    · have h : runInstances (instancesOf L pages) 0 ⟨[], []⟩ = .ok ⟨[], []⟩ := by
        rw [hins]; rfl
      rw [process_pdf_pos (by omega) h]
      rfl
    · rw [hins] at hkeys
      simp only [List.headD_cons] at hkeys
      have hrun : runInstances (instancesOf L pages) 0 ⟨[], []⟩ =
          .ok ⟨[], [[JsonValue.num (Int.ofNat 1)]] ++ rowsFrom [] 1 rest⟩ := by
        rw [hins, runInstances_cons_ok (stepInstance_zero_nokeys fi hkeys)]
        exact runInstances_nilqs rest 1 _ (by omega) rfl
      rw [process_pdf_pos (by omega) hrun]
      simp [rowsFrom]
  · exact rowsFrom_nilqs_shape _ 0

/-- Witness: three failed pages at `survey_length = 2`. -/
theorem survey_empty_schema_witness :
    process_pdf 2 [none, none, none]
      = .ok (["response_id"], [[JsonValue.num 1], [JsonValue.num 2]]) :=
  ((survey_empty_schema 2 [none, none, none] (by omega) (by rfl)).1).trans (by rfl)

/-- C1. The end-to-end scenario: 4 pages at `survey_length = 2`, with
the stated per-page extractions and a failed page 4, fixes the schema to
`1_1, 1_2` and emits exactly the two rows `(1, true, false)` and
`(2, false, "")`. -/
theorem survey_end_to_end :
    process_pdf 2 scenarioPages =
      .ok (["response_id", "1_1", "1_2"],
        [[JsonValue.num 1, JsonValue.bool true, JsonValue.bool false],
         [JsonValue.num 2, JsonValue.bool false, JsonValue.str ""]]) := rfl
